import Mathlib

/-!
Verification of the high-dimensional logistic regression package
(`hdlogistic.py`): the Chebyshev greedy algorithm path builder
(`chebyshev_greedy_algorithm_path`), the HDIC+Trim selector
(`_cga_hdic_trim`), the information criteria, and the estimator wrapper
(`fit`, `predict_proba`, `predict`, `tune_wn_via_ic`).

Floating point scalars are modelled as rationals.  The external numeric
collaborators that the package calls out to — `np.exp`, `np.log`,
`np.sqrt`, `np.linalg.matrix_rank` and the nonlinear minimizer
`scipy.optimize.minimize` — are collected in an environment `Env` that
every embedded function takes as a parameter; all the bookkeeping of the
source (array shapes, index arithmetic, fancy indexing, loop structure)
is translated literally.
-/

namespace HdLogistic

abbrev Vec := List ℚ
abbrev Mat := List (List ℚ)

/-- Dot product of two vectors (trailing entries of the longer one ignored,
as with equally-shaped numpy arrays the lengths always agree). -/
def dot (a b : Vec) : ℚ := (List.zipWith (fun x z => x * z) a b).sum

/-- `X @ beta`: matrix-vector product, one dot product per row. -/
def matvec (X : Mat) (beta : Vec) : Vec := X.map (fun row => dot row beta)

/-- Number of columns of a (rectangular) row-major matrix, `X.shape[1]`. -/
def numCols (X : Mat) : ℕ := (X.headD []).length

/-- Column `j` of `X` (out-of-range entries read as 0; never happens on
rectangular data). -/
def colOf (X : Mat) (j : ℕ) : Vec := X.map (fun row => row.getD j 0)

/-- `X[:, idxs]`: column selection by a list of indices (duplicates kept,
exactly like numpy fancy indexing). -/
def selCols (X : Mat) (idxs : List ℕ) : Mat :=
  X.map (fun row => idxs.map (fun j => row.getD j 0))

/-- `np.c_[np.ones([n, 1]), X]` when the intercept is requested, else `X`. -/
def withIntercept (fit_intercept : Bool) (X : Mat) : Mat :=
  if fit_intercept then X.map (fun row => (1 : ℚ) :: row) else X

/-- The result record of the external nonlinear minimizer
(`scipy.optimize.minimize`): the solution `res.x` and the final objective
value `res.fun`. -/
structure MinimizeResult where
  x : Vec
  fnval : ℚ

/-- The external numeric collaborators of the package, out of scope of the
core (spec section 1): elementwise `np.exp`, `np.log`, `np.sqrt`,
`np.linalg.matrix_rank`, and `scipy.optimize.minimize` which consumes the
solver options, the method name, the tolerance, the objective, gradient
and Hessian closures, and the initial point, and returns a solution and an
objective value. -/
structure Env where
  exp : ℚ → ℚ
  log : ℚ → ℚ
  sqrt : ℚ → ℚ
  rank : Mat → ℕ
  minimize : Option String → String → ℚ → (Vec → ℚ) → (Vec → Vec) → (Vec → Mat) →
    Vec → MinimizeResult

/-- Source `logistic(X, beta) = np.exp(X@beta) / (1 + np.exp(X@beta))`. -/
def logistic (env : Env) (X : Mat) (beta : Vec) : Vec :=
  (matvec X beta).map (fun z => env.exp z / (1 + env.exp z))

/-- Source `_logistic_loss`: the closure
`beta ↦ np.sum(np.log(1 + np.exp(X @ beta)) / n) - y @ X @ beta / n`. -/
def logistic_loss (env : Env) (X : Mat) (y : Vec) : Vec → ℚ :=
  fun beta =>
    let n : ℚ := (X.length : ℚ)
    ((matvec X beta).map (fun z => env.log (1 + env.exp z) / n)).sum -
      dot y (matvec X beta) / n

/-- Source `_logistic_grad_hess`, first component: the closure
`beta ↦ (logistic(X, beta) - y) @ X / n`. -/
def logistic_grad (env : Env) (X : Mat) (y : Vec) : Vec → Vec :=
  fun beta =>
    let n : ℚ := (X.length : ℚ)
    let r := List.zipWith (fun a b => a - b) (logistic env X beta) y
    (List.range (numCols X)).map (fun j => dot r (colOf X j) / n)

/-- Source `_logistic_grad_hess`, second component: the closure
`beta ↦ X.T * (logistic(X, beta) * (1 - logistic(X, beta))) @ X / n`
(the label vector is not used by the Hessian in the source). -/
def logistic_hess (env : Env) (X : Mat) : Vec → Mat :=
  fun beta =>
    let n : ℚ := (X.length : ℚ)
    let w := (logistic env X beta).map (fun q => q * (1 - q))
    (List.range (numCols X)).map (fun j =>
      (List.range (numCols X)).map (fun l =>
        dot (List.zipWith (fun a b => a * b) w (colOf X j)) (colOf X l) / n))

/-- Source `_hd_information_criterion`: the information criterion with the
high-dimensional penalty.  `rlog` stands for `np.log`; an unrecognized
criterion name leaves the initial value `0.0`. -/
def hd_information_criterion (rlog : ℚ → ℚ) (ic : String) (loss : ℚ) (k : ℕ)
    (wn : ℚ) (n p : ℕ) : ℚ :=
  if ic = "HQIC" then 2 * (n : ℚ) * loss + 2 * (k : ℚ) * wn * rlog (rlog (n : ℚ)) * rlog (p : ℚ)
  else if ic = "AIC" then 2 * (n : ℚ) * loss + 2 * (k : ℚ) * wn * rlog (p : ℚ)
  else if ic = "BIC" then 2 * (n : ℚ) * loss + (k : ℚ) * wn * rlog (n : ℚ) * rlog (p : ℚ)
  else 0

/-- Source `_information_criterion`: the plain information criterion used
by the tuning sweep; an unrecognized criterion name leaves the initial
value `0`. -/
def information_criterion (rlog : ℚ → ℚ) (ic : String) (loss : ℚ) (k : ℕ)
    (n : ℕ) : ℚ :=
  if ic = "HQIC" then 2 * (n : ℚ) * loss + (k : ℚ) * rlog (rlog (n : ℚ))
  else if ic = "AIC" then 2 * (n : ℚ) * loss + 2 * (k : ℚ)
  else if ic = "BIC" then 2 * (n : ℚ) * loss + (k : ℚ) * rlog (n : ℚ)
  else 0

/-- Helper for `np.argmax(v)`: index of the first maximal entry (numpy
convention: lowest index wins a tie). -/
def argmaxAux : List ℚ → ℕ → ℕ → ℚ → ℕ
  | [], _, bi, _ => bi
  | a :: t, i, bi, bv =>
    if bv < a then argmaxAux t (i + 1) i a else argmaxAux t (i + 1) bi bv

/-- `np.argmax(v)` (0 on the empty list, where numpy raises). -/
def argmaxList : List ℚ → ℕ
  | [] => 0
  | a :: t => argmaxAux t 1 0 a

/-- Helper for `np.argmin(v)`: index of the first minimal entry. -/
def argminAux : List ℚ → ℕ → ℕ → ℚ → ℕ
  | [], _, bi, _ => bi
  | a :: t, i, bi, bv =>
    if a < bv then argminAux t (i + 1) i a else argminAux t (i + 1) bi bv

/-- `np.argmin(v)` (0 on the empty list, where numpy raises). -/
def argminList : List ℚ → ℕ
  | [] => 0
  | a :: t => argminAux t 1 0 a

/-- Inner loop of numpy fancy-index assignment. -/
def fancySetGo (pr : List (ℕ × ℚ)) (c : Vec) : Vec :=
  pr.foldl (fun acc jv => acc.set jv.1 jv.2) c

/-- Numpy fancy-index assignment `c[ps] = vs`: sequential writes, so with
duplicate indices the last value wins. -/
def fancySet (c : Vec) (ps : List ℕ) (vs : Vec) : Vec :=
  fancySetGo (ps.zip vs) c

/-- `np.delete(l, idxs)` for a list of positions: drop the entries whose
position is listed. -/
def removeIdxs {α : Type} (l : List α) (idxs : List ℕ) : List α :=
  (l.enum.filter (fun pr => decide (¬ pr.1 ∈ idxs))).map Prod.snd

/-- The mutable arrays of the CGA loop of `chebyshev_greedy_algorithm_path`:
`beta` holds the `iter_cga` columns of `beta_cga` (each of length `p`),
and `x0s` records the initial point handed to the minimizer at each step
(the source's local `x0` at lines 189 and 204). -/
structure CgaState where
  beta : List Vec
  path : List ℕ
  hdic : Vec
  lossPath : Vec
  x0s : List Vec

/-- One iteration of the CGA loop (source lines 200-209), for step `k ≥ 1`:
select the column of maximal absolute gradient at the previous column's
coefficients, build the restricted loss closures, read the initial point
from column `k` of `beta_cga` (the source reads the not-yet-written
column `k`, not column `k-1`), minimize, and write back. -/
def cgaStep (env : Env) (X : Mat) (y : Vec) (ic : String) (wn : ℚ) (n p : ℕ)
    (method : String) (tol : ℚ) (options : Option String)
    (s : CgaState) (k : ℕ) : CgaState :=
  let jk := argmaxList ((logistic_grad env X y (s.beta.getD (k - 1) [])).map (fun q => |q|))
  let path1 := s.path.set k jk
  let pref := path1.take (k + 1)
  let Xs := selCols X pref
  let colk := s.beta.getD k []
  let x0 := pref.map (fun j => colk.getD j 0)
  let res := env.minimize options method tol (logistic_loss env Xs y)
    (logistic_grad env Xs y) (logistic_hess env Xs) x0
  { beta := s.beta.set k (fancySet colk pref res.x)
    path := path1
    hdic := s.hdic.set k (hd_information_criterion env.log ic res.fnval (k + 1) wn n p)
    lossPath := s.lossPath.set k res.fnval
    x0s := s.x0s ++ [x0] }

/-- Run `m` consecutive CGA steps starting at step index `k`
(the source's `for k in range(1, iter_cga)` is `cgaLoop f 1 (iter_cga - 1)`). -/
def cgaLoop (f : CgaState → ℕ → CgaState) : ℕ → ℕ → CgaState → CgaState
  | _, 0, s => s
  | k, m + 1, s => cgaLoop f (k + 1) m (f s k)

/-- Source line 175: the total number of CGA iterations,
`int(np.min([matrix_rank(X), ceil(kn*sqrt(n/log(p))) + int(fit_intercept)]))`,
computed on the intercept-extended matrix (so `p` counts the prepended
intercept column).  A negative value cannot produce a run in the source
(`np.zeros` raises), so the truncation to `ℕ` is faithful on all runs. -/
def cgaIter (env : Env) (X0 : Mat) (fit_intercept : Bool) (kn : ℚ) : ℕ :=
  let X := withIntercept fit_intercept X0
  (min ((env.rank X : ℤ))
    (⌈kn * env.sqrt ((X0.length : ℚ) / env.log ((numCols X : ℚ)))⌉ +
      (if fit_intercept then 1 else 0))).toNat

/-- The CGA state after step 0 (source lines 176-197): all arrays are
allocated as zeros of length `iter_cga`; `path[0]` is the intercept slot
when the intercept is fitted, otherwise the column of maximal absolute
gradient at zero; the first coefficient is written at row 0 of column 0
(the source writes `beta_cga[0, 0]`, row 0, not row `path[0]`). -/
def cgaStart (env : Env) (X0 : Mat) (y : Vec) (ic : String) (wn : ℚ)
    (fit_intercept : Bool) (kn : ℚ) (method : String) (tol : ℚ)
    (options : Option String) : CgaState :=
  let n := X0.length
  let X := withIntercept fit_intercept X0
  let p := numCols X
  let iter := cgaIter env X0 fit_intercept kn
  let beta0 : List Vec := List.replicate iter (List.replicate p (0 : ℚ))
  let j0 := if fit_intercept then 0
    else argmaxList ((logistic_grad env X y (List.replicate p 0)).map (fun q => |q|))
  let Xs0 := selCols X [j0]
  let x00 : Vec := [(beta0.getD 0 []).getD 0 0]
  let res := env.minimize options method tol (logistic_loss env Xs0 y)
    (logistic_grad env Xs0 y) (logistic_hess env Xs0) x00
  { beta := beta0.set 0 ((beta0.getD 0 []).set 0 (res.x.getD 0 0))
    path := (List.replicate iter 0).set 0 j0
    hdic := (List.replicate iter (0 : ℚ)).set 0
      (hd_information_criterion env.log ic res.fnval 1 wn n p)
    lossPath := (List.replicate iter (0 : ℚ)).set 0 res.fnval
    x0s := [x00] }

/-- The return value of `chebyshev_greedy_algorithm_path`, together with
the recorded per-step initial points `x0s`. -/
structure CgaResult where
  beta : List Vec
  path : List ℕ
  hdic : Vec
  iter : ℕ
  lossPath : Vec
  x0s : List Vec

/-- Source `chebyshev_greedy_algorithm_path` (lines 126-211): step 0
followed by steps `1 .. iter_cga - 1`, no early stopping.  When
`iter_cga = 0` the source raises on `path_cga[0] = ...`; the embedding
returns the empty trace there. -/
def chebyshev_greedy_algorithm_path (env : Env) (X0 : Mat) (y : Vec)
    (ic : String) (wn : ℚ) (fit_intercept : Bool) (kn : ℚ)
    (method : String) (tol : ℚ) (options : Option String) : CgaResult :=
  let iter := cgaIter env X0 fit_intercept kn
  if iter = 0 then ⟨[], [], [], iter, [], []⟩
  else
    let X := withIntercept fit_intercept X0
    let sF := cgaLoop
      (cgaStep env X y ic wn X0.length (numCols X) method tol options)
      1 (iter - 1)
      (cgaStart env X0 y ic wn fit_intercept kn method tol options)
    ⟨sF.beta, sF.path, sF.hdic, iter, sF.lossPath, sF.x0s⟩

/-- The arguments of `_cga_hdic_trim`, bundled. -/
structure TrimArgs where
  env : Env
  X : Mat
  y : Vec
  ic : String
  wn : ℚ
  fit_intercept : Bool
  kn : ℚ
  method : String
  tol : ℚ
  options : Option String

/-- The CGA stage of `_cga_hdic_trim` (source lines 270-271): the path
call forwards every argument except `options`, which is therefore always
the default `None` inside the path stage. -/
def cgaOf (a : TrimArgs) : CgaResult :=
  chebyshev_greedy_algorithm_path a.env a.X a.y a.ic a.wn a.fit_intercept
    a.kn a.method a.tol none

/-- `k_hdic = np.argmin(hdic_cga)` (source line 277). -/
def kHdicOf (a : TrimArgs) : ℕ := argminList (cgaOf a).hdic

/-- `model = path_cga[0:k_hdic+1]` (source line 278). -/
def modelOf (a : TrimArgs) : List ℕ := (cgaOf a).path.take (kHdicOf a + 1)

/-- The minimizer result for the exclusion model that drops position `k`
of the selected model (source lines 288-296): refit on
`X[:, np.delete(model, k)]`, warm-started from column `k_hdic` of
`beta_cga` at the remaining positions. -/
def trimExclRes (a : TrimArgs) (k : ℕ) : MinimizeResult :=
  let r := cgaOf a
  let X := withIntercept a.fit_intercept a.X
  let kH := kHdicOf a
  let mtk := (modelOf a).eraseIdx k
  let Xs := selCols X mtk
  let x0 := mtk.map (fun j => (r.beta.getD kH []).getD j 0)
  a.env.minimize a.options a.method a.tol (logistic_loss a.env Xs a.y)
    (logistic_grad a.env Xs a.y) (logistic_hess a.env Xs) x0

/-- The high-dimensional IC of the exclusion model at position `k`
(source line 298): free-parameter count `k_hdic`, and `(n, p)` from the
shape of `X` before the intercept column is prepended (line 266). -/
def hdicTrimAt (a : TrimArgs) (k : ℕ) : ℚ :=
  hd_information_criterion a.env.log a.ic (trimExclRes a k).fnval (kHdicOf a)
    a.wn a.X.length (numCols a.X)

/-- The list of positions marked for removal by the Trim loop (source
lines 281-302): positions `int(fit_intercept) .. k_hdic` whose exclusion
model has a strictly lower HD-IC than `hdic_cga[k_hdic]`; the loop only
runs when the selected model has more than one variable. -/
def trimMarksOf (a : TrimArgs) : List ℕ :=
  if 1 < (modelOf a).length then
    (List.range' (if a.fit_intercept then 1 else 0)
        (kHdicOf a + 1 - (if a.fit_intercept then 1 else 0))).filter
      (fun k => decide (hdicTrimAt a k < (cgaOf a).hdic.getD (kHdicOf a) 0))
  else []

/-- `model_trim = np.delete(model, model_trim_list)` (source line 304). -/
def modelTrimOf (a : TrimArgs) : List ℕ := removeIdxs (modelOf a) (trimMarksOf a)

/-- The minimizer result of the post-trim reestimation (source lines
307-312), performed when at least one position was removed. -/
def trimRefitRes (a : TrimArgs) : MinimizeResult :=
  let r := cgaOf a
  let X := withIntercept a.fit_intercept a.X
  let kH := kHdicOf a
  let mt := modelTrimOf a
  let Xs := selCols X mt
  let x0 := mt.map (fun j => (r.beta.getD kH []).getD j 0)
  a.env.minimize a.options a.method a.tol (logistic_loss a.env Xs a.y)
    (logistic_grad a.env Xs a.y) (logistic_hess a.env Xs) x0

/-- `beta_hat` of `_cga_hdic_trim` (source lines 267, 307-316): zeros of
length `p + int(fit_intercept)`, filled at the trimmed model positions
with the reestimated coefficients when a removal occurred, else at the
selected model positions with column `k_hdic` of `beta_cga`. -/
def betaHatOf (a : TrimArgs) : Vec :=
  let r := cgaOf a
  let kH := kHdicOf a
  let zs : Vec := List.replicate (if a.fit_intercept then numCols a.X + 1 else numCols a.X) 0
  if trimMarksOf a = [] then
    fancySet zs (modelOf a) ((modelOf a).map (fun j => (r.beta.getD kH []).getD j 0))
  else
    fancySet zs (modelTrimOf a) (trimRefitRes a).x

/-- The final loss of `_cga_hdic_trim` (source lines 314, 317). -/
def lossOf (a : TrimArgs) : ℚ :=
  if trimMarksOf a = [] then (cgaOf a).lossPath.getD (kHdicOf a) 0
  else (trimRefitRes a).fnval

/-- The nine-tuple returned by `_cga_hdic_trim`; index values become
integers because the intercept index correction subtracts one. -/
structure TrimResult where
  intercept : ℚ
  coef : Vec
  model_trim : List ℤ
  loss : ℚ
  path : List ℤ
  intercept_cga : Vec
  coef_cga : List Vec
  hdic : Vec
  iter : ℕ

/-- Source `_cga_hdic_trim` (lines 214-335): CGA, HDIC truncation, Trim,
then the intercept index correction (lines 319-333): with the intercept,
drop the leading entry of `path`/`model_trim`/`hdic`, shift the remaining
indices down by one, split `beta_hat` into intercept and coefficients,
split `beta_cga` into its intercept row and the rest, and decrement
`iter_cga`; without the intercept, the intercept is exactly 0 and nothing
is shifted. -/
def cga_hdic_trim (a : TrimArgs) : TrimResult :=
  let r := cgaOf a
  let bh := betaHatOf a
  let mt := modelTrimOf a
  let L := lossOf a
  if a.fit_intercept then
    ⟨bh.getD 0 0, bh.drop 1, (mt.drop 1).map (fun j => (j : ℤ) - 1), L,
      (r.path.drop 1).map (fun j => (j : ℤ) - 1),
      r.beta.map (fun c => c.getD 0 0), r.beta.map (fun c => c.drop 1),
      r.hdic.drop 1, r.iter - 1⟩
  else
    ⟨0, bh, mt.map (fun j => (j : ℤ)), L, r.path.map (fun j => (j : ℤ)),
      List.replicate r.iter 0, r.beta, r.hdic, r.iter⟩

/-- The constructor parameters of `HighDimensionalLogisticRegression`. -/
structure HDParams where
  ic : String
  wn : ℚ
  fit_intercept : Bool
  kn : ℚ
  method : String
  tol : ℚ
  options : Option String

/-- The attribute state of a fitted `HighDimensionalLogisticRegression`.
`X_` models the attribute `self.X_` that `predict_proba`, `predict` and
`score` read on their no-intercept branch: no method of the class ever
assigns it, so it stays `none` (an `AttributeError` at run time). -/
structure HDState where
  wn : ℚ
  intercept : ℚ
  coef : Vec
  model : List ℤ
  loss : ℚ
  path : List ℤ
  intercept_cga : Vec
  coef_cga : List Vec
  hdic : Vec
  iter : ℕ
  X_ : Option Mat

/-- Source `fit` (lines 396-414): run the three-stage selector and store
the nine results; `self.X_` is never assigned. -/
def fit (env : Env) (par : HDParams) (X : Mat) (y : Vec) : HDState :=
  let r := cga_hdic_trim ⟨env, X, y, par.ic, par.wn, par.fit_intercept,
    par.kn, par.method, par.tol, par.options⟩
  ⟨par.wn, r.intercept, r.coef, r.model_trim, r.loss, r.path,
    r.intercept_cga, r.coef_cga, r.hdic, r.iter, none⟩

/-- Source `predict_proba` (lines 416-435): with the intercept, the
sigmoid probabilities of the intercept-extended rows of `X` under
`np.r_[intercept_, coef_]`; without it, the source evaluates
`logistic(self.X_, self.coef_)` where `self.X_` was never assigned, an
`AttributeError`. -/
def predict_proba (env : Env) (par : HDParams) (st : HDState) (X : Mat) :
    Except String Vec :=
  if par.fit_intercept then
    let Xe := X.map (fun row => (1 : ℚ) :: row)
    Except.ok (logistic env Xe (st.intercept :: st.coef))
  else
    match st.X_ with
    | some Xf => Except.ok (logistic env Xf st.coef)
    | none => Except.error ("AttributeError: X_")

/-- Source `predict` (lines 437-456): the probabilities thresholded with
the strict comparison `> 0.5`; the no-intercept branch reads the
never-assigned `self.X_` just as `predict_proba` does. -/
def predict (env : Env) (par : HDParams) (st : HDState) (X : Mat) :
    Except String (List Bool) :=
  if par.fit_intercept then
    let Xe := X.map (fun row => (1 : ℚ) :: row)
    Except.ok ((logistic env Xe (st.intercept :: st.coef)).map
      (fun q => decide ((1 : ℚ) / 2 < q)))
  else
    match st.X_ with
    | some Xf => Except.ok ((logistic env Xf st.coef).map
        (fun q => decide ((1 : ℚ) / 2 < q)))
    | none => Except.error ("AttributeError: X_")

/-- One grid iteration of `tune_wn_via_ic` (source lines 501-507): rerun
the full selector at the grid value, and replace the stored state when
the plain IC of the rerun beats `ic_origin` — the IC of the state as it
was before the sweep, not of the current best. -/
def tuneStep (env : Env) (par : HDParams) (X : Mat) (y : Vec) (ic_wn : String)
    (icOrigin : ℚ) (cur : HDState) (wnTune : ℚ) : HDState :=
  let reg := cga_hdic_trim ⟨env, X, y, par.ic, wnTune, par.fit_intercept,
    par.kn, par.method, par.tol, par.options⟩
  let icTune := information_criterion env.log ic_wn reg.loss
    reg.model_trim.length X.length
  if icTune < icOrigin then
    { cur with
      wn := wnTune
      intercept := reg.intercept
      coef := reg.coef
      model := reg.model_trim
      loss := reg.loss
      path := reg.path
      intercept_cga := reg.intercept_cga
      coef_cga := reg.coef_cga
      hdic := reg.hdic
      iter := reg.iter }
  else cur

/-- Source `tune_wn_via_ic` (lines 480-509): sweep the grid, comparing
each rerun against the pre-sweep IC, and return the selected `wn`
together with the final attribute state. -/
def tune_wn_via_ic (env : Env) (par : HDParams) (st : HDState) (X : Mat)
    (y : Vec) (ic_wn : String) (grid : List ℚ) : ℚ × HDState :=
  let icOrigin := information_criterion env.log ic_wn st.loss st.model.length X.length
  let fin := grid.foldl (tuneStep env par X y ic_wn icOrigin) st
  (fin.wn, fin)

/-!
Concrete environments and data sets, used by the closed witnesses and
counterexamples below.  The minimizer oracles are simple computable
stand-ins for `scipy.optimize.minimize` (the spec places the minimizer
out of scope, as an external collaborator returning a solution vector and
an objective value).
-/

/-- Environment whose minimizer returns the all-ones vector of the shape
of the initial point. -/
def envC1 : Env :=
  ⟨fun _ => 1, fun _ => 1, fun _ => 1, fun _ => 2,
    fun _ _ _ _ _ _ x0 => ⟨x0.map (fun _ => 1), 0⟩⟩

def XC1 : Mat := [[1], [2]]

def yC1 : Vec := [0, 1]

/-- Environment whose minimizer returns the initial point and a loss that
only depends on the size of the active set. -/
def envC2 : Env :=
  ⟨fun _ => 1, fun _ => 1, fun _ => 3, fun _ => 3,
    fun _ _ _ _ _ _ x0 =>
      ⟨x0, if x0.length = 1 then 3 else if x0.length = 2 then 1 else 0⟩⟩

def XC2 : Mat := [[1, 0, 0], [0, 1, 0], [0, 0, 1]]

def yC2 : Vec := [0, 0, 0]

def parC2 : HDParams := ⟨"HQIC", 7, false, 1, "dogleg", 1 / 1000, none⟩

/-- The grid refit of the tuning sweep of `parC2` at `wn = 1`. -/
def aC2 : TrimArgs := ⟨envC2, XC2, yC2, "HQIC", 1, false, 1, "dogleg", 1 / 1000, none⟩

/-- Environment whose minimizer returns the all-ones vector, with a loss
that makes both non-intercept positions individually removable in the
Trim stage while the joint refit has a large loss. -/
def envC3 : Env :=
  ⟨fun _ => 1, fun _ => 1, fun _ => 2, fun _ => 3,
    fun _ _ _ _ _ _ x0 =>
      ⟨x0.map (fun _ => 1),
        if x0 = [0] then 2 else if x0 = [0, 0] then 1
        else if x0 = [0, 0, 0] then 0 else if x0 = [1, 1] then 0 else 100⟩⟩

def XC3 : Mat := [[1, 0], [0, 1], [0, 0]]

def yC3 : Vec := [0, 0, 0]

def aC3 : TrimArgs := ⟨envC3, XC3, yC3, "HQIC", 1, true, 1, "dogleg", 1 / 1000, none⟩

/-- Environment whose minimizer returns the initial point unchanged (for
the run below the zero vector is the exact optimum of the step-0
subproblem, and the full gradient at the resulting coefficients is
identically zero). -/
def envC4 : Env :=
  ⟨fun _ => 1, fun _ => 693 / 1000, fun _ => 17 / 10, fun _ => 2,
    fun _ _ _ _ _ _ x0 => ⟨x0, 0⟩⟩

def XC4 : Mat := [[1], [2]]

def yC4 : Vec := [1 / 2, 1 / 2]

def envC7 : Env :=
  ⟨fun _ => 1, fun _ => 1, fun _ => 1, fun _ => 1,
    fun _ _ _ _ _ _ x0 => ⟨x0, 0⟩⟩

def parC7 : HDParams := ⟨"HQIC", 1, false, 1, "dogleg", 1 / 1000, none⟩

def XC7 : Mat := [[1]]

def yC7 : Vec := [0]

/-! ### Auxiliary list lemmas -/

theorem getD_set_ne {α : Type} :
    ∀ (l : List α) (i j : ℕ) (a d : α), i ≠ j → (l.set i a).getD j d = l.getD j d
  | [], _, _, _, _, _ => rfl
  | _ :: _, 0, 0, _, _, h => absurd rfl h
  | b :: t, 0, j + 1, a, d, _ => by
      show (a :: t).getD (j + 1) d = (b :: t).getD (j + 1) d
      rw [List.getD_cons_succ, List.getD_cons_succ]
  | b :: t, i + 1, 0, a, d, _ => rfl
  | b :: t, i + 1, j + 1, a, d, h => by
      show (b :: t.set i a).getD (j + 1) d = (b :: t).getD (j + 1) d
      rw [List.getD_cons_succ, List.getD_cons_succ]
      exact getD_set_ne t i j a d (by omega)

theorem getD_mem {α : Type} :
    ∀ (l : List α) (n : ℕ) (d : α), n < l.length → l.getD n d ∈ l
  | [], n, d, h => absurd h (by simp)
  | a :: t, 0, d, _ => by rw [List.getD_cons_zero]; exact List.mem_cons_self a t
  | a :: t, n + 1, d, h => by
      rw [List.getD_cons_succ]
      exact List.mem_cons_of_mem a (getD_mem t n d (by simpa using h))

theorem fancySetGo_length :
    ∀ (pr : List (ℕ × ℚ)) (c : Vec), (fancySetGo pr c).length = c.length
  | [], _ => rfl
  | jv :: t, c => by
      have h : fancySetGo (jv :: t) c = fancySetGo t (c.set jv.1 jv.2) := rfl
      rw [h, fancySetGo_length t, List.length_set]

theorem fancySet_length (c : Vec) (ps : List ℕ) (vs : Vec) :
    (fancySet c ps vs).length = c.length :=
  fancySetGo_length _ _

theorem headD_eq_getD {α : Type} (l : List α) (d : α) : l.headD d = l.getD 0 d := by
  cases l <;> rfl

theorem removeIdxs_sublist {α : Type} (l : List α) (idxs : List ℕ) :
    (removeIdxs l idxs).Sublist l := by
  have h1 : (l.enum.filter (fun pr => decide (¬ pr.1 ∈ idxs))).Sublist l.enum :=
    List.filter_sublist _
  have h2 := h1.map Prod.snd
  rwa [List.enum_map_snd] at h2

theorem removeIdxs_headD {α : Type} (x : α) (t : List α) (idxs : List ℕ) (d : α)
    (h : ¬ (0 ∈ idxs)) : (removeIdxs (x :: t) idxs).headD d = x := by
  simp [removeIdxs, List.enum_cons, List.filter_cons, h]

theorem getD_replicate_zero {α : Type} (m : ℕ) (a d : α) :
    (List.replicate (m + 1) a).getD 0 d = a := by
  rw [List.replicate_succ, List.getD_cons_zero]

theorem mem_start_beta {p it : ℕ} (v : ℚ) (c : Vec)
    (hc : c ∈ (List.replicate it (List.replicate p (0 : ℚ))).set 0
      (((List.replicate it (List.replicate p (0 : ℚ))).getD 0 []).set 0 v)) :
    c.length = p := by
  cases it with
  | zero => simp at hc
  | succ m =>
    rcases List.mem_or_eq_of_mem_set hc with h | h
    · rw [List.eq_of_mem_replicate h]; simp
    · rw [h, List.length_set, getD_replicate_zero]; simp

/-! ### Invariants of the CGA loop -/

theorem cgaStep_facts (env : Env) (X : Mat) (y : Vec) (ic : String) (wn : ℚ)
    (n p : ℕ) (method : String) (tol : ℚ) (options : Option String)
    (s : CgaState) (k : ℕ) (hk : 1 ≤ k) (hb : ∀ c ∈ s.beta, c.length = p) :
    (cgaStep env X y ic wn n p method tol options s k).path.length = s.path.length ∧
    (cgaStep env X y ic wn n p method tol options s k).hdic.length = s.hdic.length ∧
    (cgaStep env X y ic wn n p method tol options s k).lossPath.length = s.lossPath.length ∧
    (cgaStep env X y ic wn n p method tol options s k).beta.length = s.beta.length ∧
    (∀ c ∈ (cgaStep env X y ic wn n p method tol options s k).beta, c.length = p) ∧
    (cgaStep env X y ic wn n p method tol options s k).x0s.length = s.x0s.length + 1 ∧
    (cgaStep env X y ic wn n p method tol options s k).path.getD 0 0 = s.path.getD 0 0 := by
  refine ⟨by simp [cgaStep], by simp [cgaStep], by simp [cgaStep], by simp [cgaStep],
    ?_, by simp [cgaStep], ?_⟩
  · intro c hc
    simp only [cgaStep] at hc
    by_cases hkl : k < s.beta.length
    · rcases List.mem_or_eq_of_mem_set hc with h | h
      · exact hb c h
      · rw [h, fancySet_length]
        exact hb _ (getD_mem _ _ _ hkl)
    · rw [List.set_eq_of_length_le (by omega)] at hc
      exact hb c hc
  · simp only [cgaStep]
    exact getD_set_ne _ _ _ _ _ (by omega)

theorem cgaLoop_facts (env : Env) (X : Mat) (y : Vec) (ic : String) (wn : ℚ)
    (n p : ℕ) (method : String) (tol : ℚ) (options : Option String) :
    ∀ (m k : ℕ) (s : CgaState), 1 ≤ k → (∀ c ∈ s.beta, c.length = p) →
    (cgaLoop (cgaStep env X y ic wn n p method tol options) k m s).path.length = s.path.length ∧
    (cgaLoop (cgaStep env X y ic wn n p method tol options) k m s).hdic.length = s.hdic.length ∧
    (cgaLoop (cgaStep env X y ic wn n p method tol options) k m s).lossPath.length = s.lossPath.length ∧
    (cgaLoop (cgaStep env X y ic wn n p method tol options) k m s).beta.length = s.beta.length ∧
    (∀ c ∈ (cgaLoop (cgaStep env X y ic wn n p method tol options) k m s).beta, c.length = p) ∧
    (cgaLoop (cgaStep env X y ic wn n p method tol options) k m s).x0s.length = s.x0s.length + m ∧
    (cgaLoop (cgaStep env X y ic wn n p method tol options) k m s).path.getD 0 0 = s.path.getD 0 0 := by
  intro m
  induction m with
  | zero =>
    intro k s _ hb
    exact ⟨rfl, rfl, rfl, rfl, hb, rfl, rfl⟩
  | succ m ih =>
    intro k s hk hb
    obtain ⟨e1, e2, e3, e4, e5, e6, e7⟩ :=
      cgaStep_facts env X y ic wn n p method tol options s k hk hb
    obtain ⟨f1, f2, f3, f4, f5, f6, f7⟩ :=
      ih (k + 1) (cgaStep env X y ic wn n p method tol options s k) (by omega) e5
    have hdef : cgaLoop (cgaStep env X y ic wn n p method tol options) k (m + 1) s =
        cgaLoop (cgaStep env X y ic wn n p method tol options) (k + 1) m
          (cgaStep env X y ic wn n p method tol options s k) := rfl
    rw [hdef]
    exact ⟨f1.trans e1, f2.trans e2, f3.trans e3, f4.trans e4, f5,
      by rw [f6, e6]; omega, f7.trans e7⟩

theorem cgaStart_facts (env : Env) (X0 : Mat) (y : Vec) (ic : String) (wn : ℚ)
    (fi : Bool) (kn : ℚ) (method : String) (tol : ℚ) (options : Option String) :
    (cgaStart env X0 y ic wn fi kn method tol options).path.length = cgaIter env X0 fi kn ∧
    (cgaStart env X0 y ic wn fi kn method tol options).hdic.length = cgaIter env X0 fi kn ∧
    (cgaStart env X0 y ic wn fi kn method tol options).lossPath.length = cgaIter env X0 fi kn ∧
    (cgaStart env X0 y ic wn fi kn method tol options).beta.length = cgaIter env X0 fi kn ∧
    (cgaStart env X0 y ic wn fi kn method tol options).x0s.length = 1 ∧
    (∀ c ∈ (cgaStart env X0 y ic wn fi kn method tol options).beta,
      c.length = numCols (withIntercept fi X0)) := by
  refine ⟨by simp [cgaStart], by simp [cgaStart], by simp [cgaStart], by simp [cgaStart],
    by simp [cgaStart], ?_⟩
  intro c hc
  simp only [cgaStart] at hc
  exact mem_start_beta _ c hc

theorem cgaStart_head (env : Env) (X0 : Mat) (y : Vec) (ic : String) (wn : ℚ)
    (kn : ℚ) (method : String) (tol : ℚ) (options : Option String)
    (h : cgaIter env X0 true kn ≠ 0) :
    (cgaStart env X0 y ic wn true kn method tol options).path.getD 0 0 = 0 := by
  obtain ⟨m, hm⟩ := Nat.exists_eq_succ_of_ne_zero h
  simp only [cgaStart, hm]
  simp [List.replicate_succ]

/-! ### The claims -/

/-- C1: the initial point handed to the nonlinear minimizer at step `k ≥ 1`
is read from column `k` of `beta_cga` — a column that has not been written
yet — so it is the zero vector, not the previous step's fitted solution.
On the concrete run below, step 0 fits the intercept coefficient to `1`,
yet the step-1 initial point is `[0, 0]` where a warm start would be
`[1, 0]`. -/
theorem C1_step_x0_is_zero :
    (chebyshev_greedy_algorithm_path envC1 XC1 yC1 ("HQIC") 1 true 1 ("dogleg")
        (1 / 100) none).x0s.getD 1 [] = [0, 0] ∧
    ((chebyshev_greedy_algorithm_path envC1 XC1 yC1 ("HQIC") 1 true 1 ("dogleg")
        (1 / 100) none).beta.getD 0 []).getD 0 0 = 1 := by
  with_unfolding_all decide

/-- C2 (amended): the state left behind by `tune_wn_via_ic` never has a
worse plain information criterion than the pre-tuning fit (each accepted
grid refit is compared against the initial fit's criterion value, so the
final state's criterion is bounded by it — though it need not be the
minimum over the grid). -/
theorem C2_tuned_ic_le_initial (env : Env) (par : HDParams) (st : HDState)
    (X : Mat) (y : Vec) (ic_wn : String) (grid : List ℚ) :
    information_criterion env.log ic_wn
        (tune_wn_via_ic env par st X y ic_wn grid).2.loss
        (tune_wn_via_ic env par st X y ic_wn grid).2.model.length X.length ≤
      information_criterion env.log ic_wn st.loss st.model.length X.length := by
  have main : ∀ (g : List ℚ) (cur : HDState),
      information_criterion env.log ic_wn cur.loss cur.model.length X.length ≤
        information_criterion env.log ic_wn st.loss st.model.length X.length →
      information_criterion env.log ic_wn
          ((g.foldl (tuneStep env par X y ic_wn
            (information_criterion env.log ic_wn st.loss st.model.length X.length)) cur)).loss
          ((g.foldl (tuneStep env par X y ic_wn
            (information_criterion env.log ic_wn st.loss st.model.length X.length)) cur)).model.length
          X.length ≤
        information_criterion env.log ic_wn st.loss st.model.length X.length := by
    intro g
    induction g with
    | nil => intro cur h; exact h
    | cons w g ih =>
      intro cur h
      refine ih _ ?_
      unfold tuneStep
      dsimp only
      split
      · next hlt => exact le_of_lt hlt
      · exact h
  exact main grid st (le_refl _)

/-- C2 counterexample: on the concrete data below the sweep accepts
`wn = 1` (plain AIC 6) and then also accepts `wn = 4` (plain AIC 10)
because both beat the initial fit's AIC of 20 — the comparison is always
against the pre-sweep value — so the final state's criterion (10) is not
minimal over the initial fit and the grid refits (the `wn = 1` refit
scores 6). -/
theorem C2_counterexample :
    information_criterion envC2.log ("AIC") (cga_hdic_trim aC2).loss
        (cga_hdic_trim aC2).model_trim.length XC2.length <
      information_criterion envC2.log ("AIC")
        (tune_wn_via_ic envC2 parC2 (fit envC2 parC2 XC2 yC2) XC2 yC2 ("AIC")
          [1, 4]).2.loss
        (tune_wn_via_ic envC2 parC2 (fit envC2 parC2 XC2 yC2) XC2 yC2 ("AIC")
          [1, 4]).2.model.length XC2.length := by
  with_unfolding_all decide

/-- C3 (amended): the trimmed model is a subset of the HDIC-selected
model; a position is marked for removal only when the exclusion model's
HD-IC is strictly lower than `hdic_cga[k_hdic]`; and with the intercept
fitted, the loop starts after the intercept position, which therefore
survives trimming.  (The code never compares the jointly trimmed model's
own HD-IC against the pre-trim score, and that score can exceed it.) -/
theorem C3_trim_invariants (a : TrimArgs) :
    (modelTrimOf a).Sublist (modelOf a) ∧
    (∀ k ∈ trimMarksOf a,
      hdicTrimAt a k < (cgaOf a).hdic.getD (kHdicOf a) 0) ∧
    (a.fit_intercept = true →
      (∀ k ∈ trimMarksOf a, 1 ≤ k) ∧
      ∀ (x : ℕ) (xs : List ℕ), modelOf a = x :: xs →
        (modelTrimOf a).headD 0 = x) := by
  refine ⟨removeIdxs_sublist _ _, ?_, ?_⟩
  · intro k hk
    unfold trimMarksOf at hk
    split at hk
    · obtain ⟨_, hpred⟩ := List.mem_filter.mp hk
      exact of_decide_eq_true hpred
    · simp at hk
  · intro hfi
    have hlow : ∀ k ∈ trimMarksOf a, 1 ≤ k := by
      intro k hk
      unfold trimMarksOf at hk
      rw [hfi] at hk
      split at hk
      · obtain ⟨hr, _⟩ := List.mem_filter.mp hk
        exact (List.mem_range'_1.mp hr).1
      · simp at hk
    refine ⟨hlow, ?_⟩
    intro x xs hmodel
    have h0 : ¬ (0 ∈ trimMarksOf a) := by
      intro h0
      have := hlow 0 h0
      omega
    unfold modelTrimOf
    rw [hmodel]
    exact removeIdxs_headD x xs _ 0 h0

/-- C3 witness: on the concrete fit `aC3` both non-intercept positions are
marked (their exclusion HD-IC is below the selected model's), and the
intercept survives at the head of the trimmed model. -/
theorem C3_witness :
    hdicTrimAt aC3 1 < (cgaOf aC3).hdic.getD (kHdicOf aC3) 0 ∧
    (modelTrimOf aC3).headD 0 = 0 :=
  ⟨(C3_trim_invariants aC3).2.1 1 (by with_unfolding_all decide),
    ((C3_trim_invariants aC3).2.2 rfl).2 0 [0, 0] (by with_unfolding_all decide)⟩

/-- C3 counterexample: on the fit `aC3` the Trim stage removes both
non-intercept positions (marks `[1, 2]`), and the trimmed model's HD-IC
(evaluated at its own size on the refit loss) is 602, strictly above the
pre-trim selected model's HD-IC of 6 — trimming increased the score. -/
theorem C3_counterexample :
    trimMarksOf aC3 = [1, 2] ∧
    (cgaOf aC3).hdic.getD (kHdicOf aC3) 0 <
      hd_information_criterion envC3.log ("HQIC") (lossOf aC3)
        (modelTrimOf aC3).length 1 XC3.length (numCols XC3) := by
  with_unfolding_all decide

/-- C4 (amended): with the intercept fitted, the first path entry is the
intercept column 0.  (Path entries need not be pairwise distinct: the
argmax ranges over all columns, including the ones already selected.) -/
theorem C4_path_starts_at_intercept (env : Env) (X0 : Mat) (y : Vec)
    (ic : String) (wn : ℚ) (kn : ℚ) (method : String) (tol : ℚ)
    (options : Option String) :
    (chebyshev_greedy_algorithm_path env X0 y ic wn true kn method tol
      options).path.headD 0 = 0 := by
  unfold chebyshev_greedy_algorithm_path
  dsimp only
  split
  · rfl
  · next hne =>
    rw [headD_eq_getD]
    have hfin := (cgaLoop_facts env (withIntercept true X0) y ic wn X0.length
      (numCols (withIntercept true X0)) method tol options
      (cgaIter env X0 true kn - 1) 1
      (cgaStart env X0 y ic wn true kn method tol options) (le_refl 1)
      (cgaStart_facts env X0 y ic wn true kn method tol options).2.2.2.2.2).2.2.2.2.2.2
    rw [hfin]
    exact cgaStart_head env X0 y ic wn kn method tol options hne

/-- C4 counterexample: on the run below the step-0 subproblem is solved
exactly at zero and the full gradient at the resulting coefficients is
identically zero, so the step-1 argmax returns index 0 again and the path
is `[0, 0]` — the entries are not pairwise distinct. -/
theorem C4_counterexample :
    ¬ (chebyshev_greedy_algorithm_path envC4 XC4 yC4 ("HQIC") 1 true 1
      ("dogleg") (1 / 100) none).path.Nodup := by
  with_unfolding_all decide

/-- C5: the path length equals
`min(rank(X_with_intercept), ceil(kn*sqrt(n/log(p))) + intercept_flag)`
where `p` counts the columns of the intercept-extended matrix (the
source computes the bound after prepending the intercept column). -/
theorem C5_iter_formula (env : Env) (X0 : Mat) (y : Vec) (ic : String)
    (wn : ℚ) (fi : Bool) (kn : ℚ) (method : String) (tol : ℚ)
    (options : Option String) :
    (chebyshev_greedy_algorithm_path env X0 y ic wn fi kn method tol
        options).iter =
      (min ((env.rank (withIntercept fi X0) : ℤ))
        (⌈kn * env.sqrt ((X0.length : ℚ) /
            env.log ((numCols (withIntercept fi X0) : ℚ)))⌉ +
          (if fi then 1 else 0))).toNat := by
  unfold chebyshev_greedy_algorithm_path
  dsimp only
  split <;> rfl

/-- C6: the intercept index correction of `_cga_hdic_trim`: with the
intercept fitted, the returned path and trimmed model drop their leading
intercept entry and shift every remaining index down by one, the
intercept coefficient is split off from the coefficient vector, the IC
trajectory and the iteration count drop the intercept's slot; without the
intercept, the returned intercept is exactly 0 and nothing is shifted. -/
theorem C6_intercept_index_correction (env : Env) (X : Mat) (y : Vec)
    (ic : String) (wn : ℚ) (kn : ℚ) (method : String) (tol : ℚ)
    (options : Option String) :
    (cga_hdic_trim ⟨env, X, y, ic, wn, true, kn, method, tol, options⟩).path =
      ((cgaOf ⟨env, X, y, ic, wn, true, kn, method, tol, options⟩).path.drop 1).map
        (fun j => (j : ℤ) - 1) ∧
    (cga_hdic_trim ⟨env, X, y, ic, wn, true, kn, method, tol, options⟩).model_trim =
      ((modelTrimOf ⟨env, X, y, ic, wn, true, kn, method, tol, options⟩).drop 1).map
        (fun j => (j : ℤ) - 1) ∧
    (cga_hdic_trim ⟨env, X, y, ic, wn, true, kn, method, tol, options⟩).intercept =
      (betaHatOf ⟨env, X, y, ic, wn, true, kn, method, tol, options⟩).getD 0 0 ∧
    (cga_hdic_trim ⟨env, X, y, ic, wn, true, kn, method, tol, options⟩).coef =
      (betaHatOf ⟨env, X, y, ic, wn, true, kn, method, tol, options⟩).drop 1 ∧
    (cga_hdic_trim ⟨env, X, y, ic, wn, true, kn, method, tol, options⟩).hdic =
      (cgaOf ⟨env, X, y, ic, wn, true, kn, method, tol, options⟩).hdic.drop 1 ∧
    (cga_hdic_trim ⟨env, X, y, ic, wn, true, kn, method, tol, options⟩).iter =
      (cgaOf ⟨env, X, y, ic, wn, true, kn, method, tol, options⟩).iter - 1 ∧
    (cga_hdic_trim ⟨env, X, y, ic, wn, false, kn, method, tol, options⟩).intercept = 0 ∧
    (cga_hdic_trim ⟨env, X, y, ic, wn, false, kn, method, tol, options⟩).path =
      (cgaOf ⟨env, X, y, ic, wn, false, kn, method, tol, options⟩).path.map
        (fun j => (j : ℤ)) ∧
    (cga_hdic_trim ⟨env, X, y, ic, wn, false, kn, method, tol, options⟩).model_trim =
      (modelTrimOf ⟨env, X, y, ic, wn, false, kn, method, tol, options⟩).map
        (fun j => (j : ℤ)) ∧
    (cga_hdic_trim ⟨env, X, y, ic, wn, false, kn, method, tol, options⟩).coef =
      betaHatOf ⟨env, X, y, ic, wn, false, kn, method, tol, options⟩ ∧
    (cga_hdic_trim ⟨env, X, y, ic, wn, false, kn, method, tol, options⟩).hdic =
      (cgaOf ⟨env, X, y, ic, wn, false, kn, method, tol, options⟩).hdic ∧
    (cga_hdic_trim ⟨env, X, y, ic, wn, false, kn, method, tol, options⟩).iter =
      (cgaOf ⟨env, X, y, ic, wn, false, kn, method, tol, options⟩).iter :=
  ⟨rfl, rfl, rfl, rfl, rfl, rfl, rfl, rfl, rfl, rfl, rfl, rfl⟩

/-- C7: with the intercept fitted, `predict_proba` returns the per-row
sigmoid probabilities of the intercept-extended rows under
`np.r_[intercept_, coef_]`, and `predict` thresholds them strictly at
0.5; the sigmoid is taken row by row.  Without the intercept both methods
read the attribute `self.X_`, which `fit` never assigns, so they fail
with an `AttributeError` instead of scoring the given `X`. -/
theorem C7_predict_contract (env : Env) (par : HDParams) (st : HDState) (X : Mat) :
    (∀ (M : Mat) (beta : Vec), logistic env M beta =
      M.map (fun row => env.exp (dot row beta) / (1 + env.exp (dot row beta)))) ∧
    (par.fit_intercept = true →
      predict_proba env par st X =
        Except.ok (logistic env (X.map (fun row => (1 : ℚ) :: row))
          (st.intercept :: st.coef)) ∧
      predict env par st X =
        Except.ok ((logistic env (X.map (fun row => (1 : ℚ) :: row))
          (st.intercept :: st.coef)).map (fun q => decide ((1 : ℚ) / 2 < q)))) ∧
    (par.fit_intercept = false → st.X_ = none →
      predict_proba env par st X = Except.error ("AttributeError: X_") ∧
      predict env par st X = Except.error ("AttributeError: X_")) ∧
    (∀ (Xt : Mat) (yt : Vec), (fit env par Xt yt).X_ = none) := by
  refine ⟨?_, ?_, ?_, ?_⟩
  · intro M beta
    simp [logistic, matvec, List.map_map, Function.comp]
  · intro h
    constructor <;> simp [predict_proba, predict, h]
  · intro h1 h2
    constructor <;> simp [predict_proba, predict, h1, h2]
  · intro Xt yt
    rfl

/-- C7 witness: an estimator fitted with `fit_intercept = False` cannot
produce probabilities — the no-intercept branch reads the never-assigned
attribute. -/
theorem C7_witness :
    predict_proba envC7 parC7 (fit envC7 parC7 XC7 yC7) XC7 =
      Except.error ("AttributeError: X_") :=
  ((C7_predict_contract envC7 parC7 (fit envC7 parC7 XC7 yC7) XC7).2.2.1 rfl rfl).1

/-- C8: the high-dimensional information criterion evaluates to
`2n*loss + 2k*wn*log(log(n))*log(p)` for HQIC,
`2n*loss + 2k*wn*log(p)` for AIC, `2n*loss + k*wn*log(n)*log(p)` for BIC,
and 0 for every other criterion string. -/
theorem C8_hd_ic_formula (rlog : ℚ → ℚ) (loss : ℚ) (k : ℕ) (wn : ℚ)
    (n p : ℕ) (hk : 1 ≤ k) (hw : 0 ≤ wn) :
    hd_information_criterion rlog ("HQIC") loss k wn n p =
      2 * (n : ℚ) * loss + 2 * (k : ℚ) * wn * rlog (rlog (n : ℚ)) * rlog (p : ℚ) ∧
    hd_information_criterion rlog ("AIC") loss k wn n p =
      2 * (n : ℚ) * loss + 2 * (k : ℚ) * wn * rlog (p : ℚ) ∧
    hd_information_criterion rlog ("BIC") loss k wn n p =
      2 * (n : ℚ) * loss + (k : ℚ) * wn * rlog (n : ℚ) * rlog (p : ℚ) ∧
    ∀ s : String, s ≠ "HQIC" → s ≠ "AIC" → s ≠ "BIC" →
      hd_information_criterion rlog s loss k wn n p = 0 := by
  refine ⟨rfl, rfl, rfl, ?_⟩
  intro s h1 h2 h3
  simp [hd_information_criterion, h1, h2, h3]

/-- C8 witness: the HQIC formula at a concrete admissible instance. -/
theorem C8_witness :
    hd_information_criterion id ("HQIC") 1 1 0 1 1 =
      2 * ((1 : ℕ) : ℚ) * 1 + 2 * ((1 : ℕ) : ℚ) * 0 * id (id ((1 : ℕ) : ℚ)) *
        id ((1 : ℕ) : ℚ) :=
  (C8_hd_ic_formula id 1 1 0 1 1 (le_refl 1) (le_refl 0)).1

/-- C9: the path runs exactly `iter_cga` steps with no early stopping:
the path, IC trajectory, loss trajectory and minimizer-call trace all
have length `iter_cga`, `beta_cga` has exactly `iter_cga` columns of
length `p` each, and the HDIC stage selects the path prefix
`path_cga[0 : argmin(hdic_cga) + 1]`. -/
theorem C9_trajectory_lengths (env : Env) (X0 : Mat) (y : Vec) (ic : String)
    (wn : ℚ) (fi : Bool) (kn : ℚ) (method : String) (tol : ℚ)
    (options : Option String) :
    (chebyshev_greedy_algorithm_path env X0 y ic wn fi kn method tol options).path.length =
      (chebyshev_greedy_algorithm_path env X0 y ic wn fi kn method tol options).iter ∧
    (chebyshev_greedy_algorithm_path env X0 y ic wn fi kn method tol options).hdic.length =
      (chebyshev_greedy_algorithm_path env X0 y ic wn fi kn method tol options).iter ∧
    (chebyshev_greedy_algorithm_path env X0 y ic wn fi kn method tol options).lossPath.length =
      (chebyshev_greedy_algorithm_path env X0 y ic wn fi kn method tol options).iter ∧
    (chebyshev_greedy_algorithm_path env X0 y ic wn fi kn method tol options).x0s.length =
      (chebyshev_greedy_algorithm_path env X0 y ic wn fi kn method tol options).iter ∧
    (chebyshev_greedy_algorithm_path env X0 y ic wn fi kn method tol options).beta.length =
      (chebyshev_greedy_algorithm_path env X0 y ic wn fi kn method tol options).iter ∧
    (∀ c ∈ (chebyshev_greedy_algorithm_path env X0 y ic wn fi kn method tol options).beta,
      c.length = numCols (withIntercept fi X0)) ∧
    modelOf ⟨env, X0, y, ic, wn, fi, kn, method, tol, options⟩ =
      (cgaOf ⟨env, X0, y, ic, wn, fi, kn, method, tol, options⟩).path.take
        (argminList (cgaOf ⟨env, X0, y, ic, wn, fi, kn, method, tol, options⟩).hdic + 1) := by
  refine ⟨?_, ?_, ?_, ?_, ?_, ?_, rfl⟩ <;>
  · unfold chebyshev_greedy_algorithm_path
    dsimp only
    split
    · next h => simp [h]
    · next h =>
      dsimp only
      obtain ⟨s1, s2, s3, s4, s5, s6⟩ :=
        cgaStart_facts env X0 y ic wn fi kn method tol options
      obtain ⟨f1, f2, f3, f4, f5, f6, _⟩ := cgaLoop_facts env (withIntercept fi X0)
        y ic wn X0.length (numCols (withIntercept fi X0)) method tol options
        (cgaIter env X0 fi kn - 1) 1
        (cgaStart env X0 y ic wn fi kn method tol options) (le_refl 1) s6
      first
        | exact f1.trans s1
        | exact f2.trans s2
        | exact f3.trans s3
        | (rw [f6, s5]; omega)
        | exact f4.trans s4
        | exact f5

/-- C9 witness: the trajectory lengths on a concrete run. -/
theorem C9_witness :
    (chebyshev_greedy_algorithm_path envC1 XC1 yC1 ("HQIC") 1 true 1 ("dogleg")
        (1 / 100) none).path.length =
      (chebyshev_greedy_algorithm_path envC1 XC1 yC1 ("HQIC") 1 true 1 ("dogleg")
        (1 / 100) none).iter :=
  (C9_trajectory_lengths envC1 XC1 yC1 ("HQIC") 1 true 1 ("dogleg") (1 / 100) none).1

set_option maxHeartbeats 2000000 in
/-- C10: `_cga_hdic_trim` never forwards its `options` argument to
`chebyshev_greedy_algorithm_path` (the path stage always runs with the
default `options = None`), so the entire CGA-stage output — the path, the
IC trajectory, the iteration count, and the per-step coefficient
trajectory — is identical for any two `options` values; `options` only
reaches the Trim-stage refits. -/
theorem C10_options_not_forwarded (a : TrimArgs) (o1 o2 : Option String) :
    cgaOf { a with options := o1 } =
      chebyshev_greedy_algorithm_path a.env a.X a.y a.ic a.wn a.fit_intercept
        a.kn a.method a.tol none ∧
    cgaOf { a with options := o1 } = cgaOf { a with options := o2 } ∧
    (cga_hdic_trim { a with options := o1 }).path =
      (cga_hdic_trim { a with options := o2 }).path ∧
    (cga_hdic_trim { a with options := o1 }).hdic =
      (cga_hdic_trim { a with options := o2 }).hdic ∧
    (cga_hdic_trim { a with options := o1 }).iter =
      (cga_hdic_trim { a with options := o2 }).iter ∧
    (cga_hdic_trim { a with options := o1 }).intercept_cga =
      (cga_hdic_trim { a with options := o2 }).intercept_cga ∧
    (cga_hdic_trim { a with options := o1 }).coef_cga =
      (cga_hdic_trim { a with options := o2 }).coef_cga := by
  obtain ⟨env, X, y, ic, wn, fi, kn, method, tol, o⟩ := a
  cases fi <;> exact ⟨rfl, rfl, rfl, rfl, rfl, rfl, rfl⟩

end HdLogistic
